import Mathlib

/-!
Verification development for the bitswap core: wantlist, want-manager
message queue, and network adapter.  Definitions are shallow embeddings of
the corresponding source functions; JS `Map`s are modelled as
insertion-ordered association lists with unique keys.
-/

namespace Bitswap

/-! ### CID model and multibase string keys

A CID is its canonical byte sequence plus its version.  The string key used
throughout the source (`cid.toString()` / `cid.toBaseEncodedString()`) comes
from the external `cids` library. -/

/-- Canonical bytes of a CID together with its version (0 or 1). -/
structure CID where
  version : Nat
  bytes : List Nat
  deriving DecidableEq, Repr

/-- Big-endian interpretation of a byte sequence as a natural number. -/
def bytesToNat : List Nat → Nat
  | [] => 0
  | b :: bs => b * 256 ^ bs.length + bytesToNat bs

/-- The base58btc digit alphabet (in ascending ASCII order). -/
def b58Char (n : Nat) : Char :=
  "123456789ABCDEFGHJKLMNPQRSTUVWXYZabcdefghijkmnopqrstuvwxyz".toList.getD n '1'

/-- Base-58 digits (most significant first) of `n`, with explicit fuel so the
recursion is structural. -/
def natToB58 : Nat → Nat → List Char
  | 0, _ => []
  | _ + 1, 0 => []
  | fuel + 1, n => natToB58 fuel (n / 58) ++ [b58Char (n % 58)]

/-- Modelled from the spec: the base58btc rendering of a byte string
(leading zero bytes become leading one-characters), as produced by the
external CID library for version-0 CIDs. -/
def b58encode (bs : List Nat) : String :=
  let zeros := (bs.takeWhile (fun b => b = 0)).length
  String.mk (List.replicate zeros '1' ++ natToB58 (2 * bs.length + 2) (bytesToNat bs))

/-- The RFC 4648 lowercase base32 digit alphabet. -/
def b32Char (n : Nat) : Char :=
  "abcdefghijklmnopqrstuvwxyz234567".toList.getD n 'a'

/-- The eight bits of a byte, most significant first. -/
def byteToBits (b : Nat) : List Nat :=
  [b / 128 % 2, b / 64 % 2, b / 32 % 2, b / 16 % 2, b / 8 % 2, b / 4 % 2, b / 2 % 2, b % 2]

/-- Group a bit stream into 5-bit base32 digits, zero-padding the tail. -/
def bitsToB32 : List Nat → List Char
  | b1 :: b2 :: b3 :: b4 :: b5 :: rest =>
      b32Char (b1 * 16 + b2 * 8 + b3 * 4 + b4 * 2 + b5) :: bitsToB32 rest
  | [] => []
  | bits => [b32Char ((bits ++ List.replicate (5 - bits.length) 0).foldl (fun a b => a * 2 + b) 0)]

/-- Modelled from the spec: the unpadded lowercase base32 rendering of a
byte string, as produced by the external CID library for version-1 CIDs. -/
def b32encode (bs : List Nat) : String :=
  String.mk (bitsToB32 ((bs.map byteToBits).flatten))

/-- Modelled from the spec: a CID is "convertible to/from a canonical byte
sequence and a base58/base32 string key" — version-0 CIDs stringify as
base58btc of the bytes, version-1 CIDs as multibase-prefixed base32. -/
def cidStr (c : CID) : String :=
  if c.version = 0 then b58encode c.bytes else "b" ++ b32encode c.bytes

/-! ### JS `Map` as an insertion-ordered association list -/

/-- `Map.prototype.get`: first value stored under key `k`. -/
def mapGet (k : String) : List (String × α) → Option α
  | [] => none
  | (k1, v) :: rest => if k1 = k then some v else mapGet k rest

/-- `Map.prototype.set`: replace in place when the key is present, else
append at the end (insertion order). -/
def mapSet (k : String) (v : α) : List (String × α) → List (String × α)
  | [] => [(k, v)]
  | (k1, v1) :: rest => if k1 = k then (k, v) :: rest else (k1, v1) :: mapSet k v rest

/-- `Map.prototype.delete`: drop the entry stored under key `k`. -/
def mapDelete (k : String) : List (String × α) → List (String × α)
  | [] => []
  | (k1, v1) :: rest => if k1 = k then rest else (k1, v1) :: mapDelete k rest

/-! ### String comparison

JS compares strings code unit by code unit; all characters appearing in
CID string keys are ASCII, where code units and code points agree. -/

/-- Lexicographic less-or-equal on character lists by code point. -/
def strLeList : List Char → List Char → Bool
  | [], _ => true
  | _ :: _, [] => false
  | a :: as, b :: bs =>
    if a.toNat < b.toNat then true
    else if b.toNat < a.toNat then false
    else strLeList as bs

/-- Lexicographic less-or-equal on strings, as JS `<=` compares them. -/
def strLe (a b : String) : Bool := strLeList a.toList b.toList

/-! ### WantListEntry (src/types/wantlist/entry.js) -/

/-- `WantListEntry`: a CID with a priority, an optional want type and a
reference counter.  JS numbers are modelled as `Int`. -/
structure WantListEntry where
  cid : CID
  priority : Int
  wantType : Option Nat
  refCounter : Int
  deriving DecidableEq, Repr

namespace WantListEntry

/-- The constructor: `_refCounter = 1`, `priority = priority || 1`. -/
def new (cid : CID) (priority : Int) (wantType : Option Nat) : WantListEntry :=
  { cid := cid
    priority := if priority = 0 then 1 else priority
    wantType := wantType
    refCounter := 1 }

/-- `inc(): this._refCounter += 1`. -/
def inc (e : WantListEntry) : WantListEntry :=
  { e with refCounter := e.refCounter + 1 }

/-- `dec(): this._refCounter = Math.max(0, this._refCounter - 1)`. -/
def dec (e : WantListEntry) : WantListEntry :=
  { e with refCounter := max 0 (e.refCounter - 1) }

/-- `hasRefs(): this._refCounter > 0`. -/
def hasRefs (e : WantListEntry) : Bool :=
  0 < e.refCounter

end WantListEntry

/-! ### Wantlist (src/wantlist/index.js) -/

/-- `Wantlist`: a JS `Map` from CID string keys to entries. -/
structure Wantlist where
  set : List (String × WantListEntry)
  deriving DecidableEq, Repr

namespace Wantlist

/-- A fresh wantlist: `this.set = new Map()`. -/
def empty : Wantlist := ⟨[]⟩

/-- `get length () { return this.set.size }`. -/
def length (w : Wantlist) : Nat := w.set.length

/-- `add(cid, priority)`: increment and reprioritise when present, else
insert a fresh entry. -/
def add (w : Wantlist) (cid : CID) (priority : Int) : Wantlist :=
  match mapGet (cidStr cid) w.set with
  | some e => ⟨mapSet (cidStr cid) { e.inc with priority := priority } w.set⟩
  | none => ⟨mapSet (cidStr cid) (WantListEntry.new cid priority none) w.set⟩

/-- `remove(cid)`: decrement; delete only when no refs are held. -/
def remove (w : Wantlist) (cid : CID) : Wantlist :=
  match mapGet (cidStr cid) w.set with
  | none => w
  | some e =>
    if (e.dec).hasRefs then ⟨mapSet (cidStr cid) e.dec w.set⟩
    else ⟨mapDelete (cidStr cid) w.set⟩

/-- `removeForce(cidStr)`: unconditional delete by key. -/
def removeForce (w : Wantlist) (cidString : String) : Wantlist :=
  ⟨mapDelete cidString w.set⟩

/-- `entries()`: the underlying key/entry pairs in insertion order. -/
def entries (w : Wantlist) : List (String × WantListEntry) := w.set

/-- Order on stored pairs used by `Array.prototype.sort()`: the stringified
pair comparison is decided by the CID string key (keys are distinct and no
key character sorts below the comma separator). -/
def keyLE (a b : String × WantListEntry) : Prop := strLe a.1 b.1 = true

instance : DecidableRel keyLE := fun a b =>
  inferInstanceAs (Decidable (strLe a.1 b.1 = true))

/-- `sortedEntries()`: the entries sorted by CID string key. -/
def sortedEntries (w : Wantlist) : List (String × WantListEntry) :=
  List.insertionSort keyLE w.set

/-- `contains(key)` of the earlier staged revision: `return
this.set.get(key.toString())` — the stored entry, or undefined. -/
def containsOld (w : Wantlist) (cid : CID) : Option WantListEntry :=
  mapGet (cidStr cid) w.set

/-- `contains(cid)` of the later staged revision:
`return !!this.set.get(cidStr)` — the boolean coercion of the lookup. -/
def contains (w : Wantlist) (cid : CID) : Bool :=
  (mapGet (cidStr cid) w.set).isSome

/-- The stored reference count for a CID (0 when absent). -/
def refCountOf (w : Wantlist) (cid : CID) : Int :=
  match mapGet (cidStr cid) w.set with
  | some e => e.refCounter
  | none => 0

end Wantlist

/-! ### Message (spec §3, §4.1)

The message class itself lives outside the embedded sources; only its
callers are available.  It is therefore modelled from the spec. -/

/-- A message wantlist entry: CID, priority and cancel flag. -/
structure MessageEntry where
  cid : CID
  priority : Int
  cancel : Bool
  deriving DecidableEq, Repr

/-- Modelled from the spec: a Message is `(full, wantlist, blocks, ...)`
where the wantlist is a mapping from CID to entry and blocks map CIDs to
bytes (spec §3); only the parts used by the message queue are modelled. -/
structure Message where
  full : Bool
  wantlist : List (String × MessageEntry)
  blocks : List (String × List Nat)
  deriving DecidableEq, Repr

namespace Message

/-- Modelled from the spec: `new(full)` with empty wantlist and blocks. -/
def new (full : Bool) : Message :=
  { full := full, wantlist := [], blocks := [] }

/-- Modelled from the spec: `add_entry(cid, priority)` records a non-cancel
want entry for the CID in the message wantlist mapping. -/
def addEntry (m : Message) (cid : CID) (priority : Int) : Message :=
  { m with wantlist := mapSet (cidStr cid) ⟨cid, priority, false⟩ m.wantlist }

/-- Modelled from the spec: `cancel(cid)` records a cancel entry for the
CID in the message wantlist mapping. -/
def cancel (m : Message) (cid : CID) : Message :=
  { m with wantlist := mapSet (cidStr cid) ⟨cid, 0, true⟩ m.wantlist }

/-- Modelled from the spec: `empty()` — no wantlist entries and no blocks. -/
def empty (m : Message) : Bool :=
  m.wantlist.isEmpty && m.blocks.isEmpty

end Message

/-! ### Network adapter (network.ts) -/

/-- Protocol string `/ipfs/bitswap/1.0.0`. -/
def BITSWAP100 : String := "/ipfs/bitswap/1.0.0"

/-- Protocol string `/ipfs/bitswap/1.1.0`. -/
def BITSWAP110 : String := "/ipfs/bitswap/1.1.0"

/-- Protocol string `/ipfs/bitswap/1.2.0`. -/
def BITSWAP120 : String := "/ipfs/bitswap/1.2.0"

/-- The `_protocols` list built by the Network constructor: start from
`[BITSWAP100]`; unless `b100Only === true`, unshift 1.1.0 then 1.2.0.
An unset option compares `!== true`, i.e. behaves as `false`. -/
def networkProtocols (b100Only : Bool) : List String :=
  if b100Only = true then [BITSWAP100]
  else BITSWAP120 :: BITSWAP110 :: [BITSWAP100]

/-- Peers are opaque identifiers. -/
abbrev PeerId := Nat

/-- The environment a dial runs against: whether the network is running and
which peers the transport can reach. -/
structure NetworkState where
  running : Bool
  dialOk : PeerId → Bool

/-- `connectTo(peer)`: throw when not running, else delegate to the dial,
which may fail with a dial error. -/
def Network.connectTo (net : NetworkState) (peer : PeerId) : Except String Unit :=
  if net.running = false then Except.error "network isnt running"
  else if net.dialOk peer then Except.ok () else Except.error "dial error"

/-- Modelled from the spec: `MAX_PROVIDERS_PER_REQUEST` defaults to 10
(the constants module is outside the embedded sources). -/
def maxProvidersPerRequest : Nat := 10

/-- A `.catch`-wrapped promise: any rejection is logged and absorbed. -/
def caught (r : Except String Unit) : Except String Unit :=
  match r with
  | Except.error _ => Except.ok ()
  | Except.ok u => Except.ok u

/-- The provider loop of `findAndConnect`: push a caught connect attempt
for each provider, stopping once `found` reaches the maximum. -/
def Network.findAndConnectLoop (net : NetworkState) :
    List PeerId → Nat → List (PeerId × Except String Unit)
  | [], _ => []
  | p :: ps, found =>
    let attempt := (p, caught (Network.connectTo net p))
    if found + 1 = maxProvidersPerRequest then [attempt]
    else attempt :: Network.findAndConnectLoop net ps (found + 1)

/-- `Promise.all`: succeeds exactly when every attempt succeeded. -/
def promiseAll (rs : List (Except String Unit)) : Except String Unit :=
  if rs.all (fun r => r.isOk) then Except.ok () else Except.error "rejected"

/-- `findAndConnect(cid)`: returns the providers a connect was issued for
and the overall outcome of awaiting all the caught attempts. -/
def Network.findAndConnect (net : NetworkState) (providers : List PeerId) :
    List PeerId × Except String Unit :=
  let attempts := Network.findAndConnectLoop net providers 0
  (attempts.map Prod.fst, promiseAll (attempts.map Prod.snd))

/-! ### Message queue (src/want-manager/msg-queue.ts) -/

/-- A pending `{cid, priority, cancel}` entry of a message queue. -/
structure QueueEntry where
  cid : CID
  priority : Int
  cancel : Bool
  deriving DecidableEq, Repr

namespace MsgQueue

/-- `addMessage(msg)`: drop empty messages; otherwise hand the message to
`send` (the returned option is the message passed on, if any). -/
def addMessage (msg : Message) : Option Message :=
  if msg.empty then none else some msg

/-- The message built by `sendEntries`: fold the pending entries into a
fresh non-full message, `msg.cancel` for cancel entries and
`msg.addEntry` for the rest. -/
def buildMessage (entries : List QueueEntry) : Message :=
  entries.foldl
    (fun m e => if e.cancel = true then m.cancel e.cid else m.addEntry e.cid e.priority)
    (Message.new false)

/-- `sendEntries()`: no-op on an empty pending list; otherwise build the
message, clear the pending list and call `addMessage`.  Returns the new
pending list and the message handed to `send`, if any. -/
def sendEntries (pending : List QueueEntry) : List QueueEntry × Option Message :=
  if pending.length = 0 then (pending, none)
  else ([], addMessage (buildMessage pending))

/-- `addEntries(entries)`: append to the pending list (the debounced flush
is modelled separately by `sendEntries`). -/
def addEntries (pending newEntries : List QueueEntry) : List QueueEntry :=
  pending ++ newEntries

/-- `send(msg)`: try `connectTo`; a failure is caught, logged and the
message dropped.  On success `sendMessage(peer, msg)` is issued (fire and
forget, its rejection also caught).  The result is `ok none` when the
message was dropped and `ok (some msg)` when `sendMessage` was issued;
an `error` result would mean an exception escaped to the caller. -/
def send (net : NetworkState) (peer : PeerId) (msg : Message) :
    Except String (Option Message) :=
  match Network.connectTo net peer with
  | Except.error _ => Except.ok none
  | Except.ok _ => Except.ok (some msg)

end MsgQueue

/-! ### Entry operation sequences (for the refcount invariant) -/

/-- An `inc` or `dec` call on a wantlist entry. -/
inductive EntryOp where
  | inc : EntryOp
  | dec : EntryOp
  deriving DecidableEq, Repr

/-- Apply a sequence of `inc`/`dec` calls to an entry, left to right. -/
def applyEntryOps (ops : List EntryOp) (e : WantListEntry) : WantListEntry :=
  match ops with
  | [] => e
  | EntryOp.inc :: rest => applyEntryOps rest e.inc
  | EntryOp.dec :: rest => applyEntryOps rest e.dec

/-! ### Sample CIDs (used by witnesses and counterexamples)

Both are real CIDs: the version-0 CID and the version-1 raw-codec CID of
the all-zero sha2-256 digest. -/

/-- A version-0 sample CID: multihash `0x12 0x20` plus a 32-byte digest. -/
def cidV0sample : CID := ⟨0, [0x12, 0x20] ++ List.replicate 32 0⟩

/-- A version-1 sample CID: version 1, raw codec `0x55`, same multihash. -/
def cidV1sample : CID := ⟨1, [0x01, 0x55, 0x12, 0x20] ++ List.replicate 32 0⟩

/-- The message entry a pending queue entry turns into: cancel entries
become cancel entries, the rest become want entries with their priority. -/
def toMessageEntry (q : QueueEntry) : MessageEntry :=
  if q.cancel = true then ⟨q.cid, 0, true⟩ else ⟨q.cid, q.priority, false⟩

/-- The last pending entry whose CID stringifies to the given key. -/
def lastEntryFor (k : String) (l : List QueueEntry) : Option QueueEntry :=
  (l.filter (fun q => cidStr q.cid == k)).getLast?

/-- A pending list holding two entries for the same CID: a want entry of
priority 1 followed by a cancel entry. -/
def dupPending : List QueueEntry :=
  [{ cid := cidV0sample, priority := 1, cancel := false },
   { cid := cidV0sample, priority := 0, cancel := true }]

/-- The wantlist of the sorted-order counterexample: one version-1 CID and
one version-0 CID. -/
def sampleWantlist : Wantlist :=
  (Wantlist.empty.add cidV1sample 1).add cidV0sample 1

/-- Strict byte-lexicographic order on canonical byte sequences. -/
def byteLexLt : List Nat → List Nat → Bool
  | _, [] => false
  | [], _ :: _ => true
  | a :: as, b :: bs =>
    if a < b then true
    else if b < a then false
    else byteLexLt as bs

/-- The strict key order on stored pairs: key below and keys distinct. -/
def keyLTstrict (a b : String × WantListEntry) : Prop :=
  Wantlist.keyLE a b ∧ a.1 ≠ b.1

/-! ### Association-list lemmas -/

theorem mapGet_mapSet_self (k : String) (v : α) (l : List (String × α)) :
    mapGet k (mapSet k v l) = some v := by
  induction l with
  | nil => simp [mapGet, mapSet]
  | cons hd t ih =>
    obtain ⟨k1, v1⟩ := hd
    by_cases hk : k1 = k
    · simp [mapGet, mapSet, hk]
    · simp [mapGet, mapSet, hk, ih]

theorem mapGet_eq_none_of_not_mem_keys (k : String) (l : List (String × α))
    (h : k ∉ l.map Prod.fst) : mapGet k l = none := by
  induction l with
  | nil => simp [mapGet]
  | cons hd t ih =>
    obtain ⟨k1, v1⟩ := hd
    simp only [List.map_cons, List.mem_cons] at h
    push_neg at h
    have hk : k1 ≠ k := fun hh => h.1 hh.symm
    simp [mapGet, hk, ih h.2]

theorem mapGet_mapDelete_self (k : String) (l : List (String × α))
    (hnd : (l.map Prod.fst).Nodup) : mapGet k (mapDelete k l) = none := by
  induction l with
  | nil => simp [mapGet, mapDelete]
  | cons hd t ih =>
    obtain ⟨k1, v1⟩ := hd
    simp only [List.map_cons, List.nodup_cons] at hnd
    by_cases hk : k1 = k
    · subst hk
      simpa [mapDelete] using mapGet_eq_none_of_not_mem_keys k1 t hnd.1
    · simp [mapGet, mapDelete, hk, ih hnd.2]

theorem mapGet_isSome_iff (k : String) (l : List (String × α)) :
    (mapGet k l).isSome = true ↔ ∃ v, (k, v) ∈ l := by
  induction l with
  | nil => simp [mapGet]
  | cons hd t ih =>
    obtain ⟨k1, v1⟩ := hd
    by_cases hk : k1 = k
    · subst hk
      simp [mapGet]
    · simp only [mapGet, if_neg hk, List.mem_cons, Prod.mk.injEq]
      rw [ih]
      constructor
      · rintro ⟨v, hv⟩
        exact ⟨v, Or.inr hv⟩
      · rintro ⟨v, hv | hv⟩
        · exact absurd hv.1.symm hk
        · exact ⟨v, hv⟩

theorem mapGet_eq_some_mem (k : String) (l : List (String × α)) (v : α)
    (h : mapGet k l = some v) : (k, v) ∈ l := by
  induction l with
  | nil => simp [mapGet] at h
  | cons hd t ih =>
    obtain ⟨k1, v1⟩ := hd
    by_cases hk : k1 = k
    · subst hk
      have hv : v1 = v := by
        have h2 : some v1 = some v := by
          rw [← h]
          simp [mapGet]
        exact Option.some.inj h2
      subst hv
      exact List.mem_cons_self _ _
    · simp only [mapGet, if_neg hk] at h
      exact List.mem_cons_of_mem _ (ih h)

/-! ### Claim theorems: wantlist -/

/-- Claim C5: `add(cid, priority, wt)` increments the existing entry's
refcount when an entry for that CID is already present (also updating its
priority, as the source does), and otherwise inserts a new entry for that
CID whose refcount is 1. -/
theorem wantlist_add_refcount (w : Wantlist) (c : CID) (p : Int) :
    (∀ e, mapGet (cidStr c) w.set = some e →
      mapGet (cidStr c) (w.add c p).set =
        some { e with refCounter := e.refCounter + 1, priority := p }) ∧
    (mapGet (cidStr c) w.set = none →
      ∃ e2, mapGet (cidStr c) (w.add c p).set = some e2 ∧ e2.refCounter = 1) := by
  constructor
  · intro e he
    simp [Wantlist.add, he, WantListEntry.inc, mapGet_mapSet_self]
  · intro he
    refine ⟨WantListEntry.new c p none, ?_, rfl⟩
    simp [Wantlist.add, he, mapGet_mapSet_self]

/-- Witness for C5 at concrete inputs: adding the sample CID twice yields
refcount 2 with the later priority. -/
theorem wantlist_add_refcount_witness :
    mapGet (cidStr cidV0sample) ((Wantlist.empty.add cidV0sample 5).add cidV0sample 7).set =
      some { cid := cidV0sample, priority := 7, wantType := none, refCounter := 2 } := by
  exact (wantlist_add_refcount (Wantlist.empty.add cidV0sample 5) cidV0sample 7).1
    { cid := cidV0sample, priority := 5, wantType := none, refCounter := 1 } (by decide)

/-- Claim C6: for a CID present in the wantlist, `remove(cid)` decrements
the entry's refcount (floored at 0) and deletes the entry exactly when the
decremented refcount is 0; while it is still positive the entry stays, with
refcount one less than before. -/
theorem wantlist_remove_refcount (w : Wantlist) (c : CID) (e : WantListEntry)
    (hnd : (w.set.map Prod.fst).Nodup)
    (he : mapGet (cidStr c) w.set = some e) :
    ((w.remove c).contains c = false ↔ e.dec.refCounter = 0) ∧
    (0 < e.dec.refCounter →
      mapGet (cidStr c) (w.remove c).set = some e.dec ∧
      e.dec.refCounter = e.refCounter - 1) := by
  by_cases hr : e.dec.hasRefs = true
  · have hpos : 0 < e.dec.refCounter := by
      simpa [WantListEntry.hasRefs] using hr
    have hcontains : (w.remove c).contains c = true := by
      simp [Wantlist.remove, he, hr, Wantlist.contains, mapGet_mapSet_self]
    constructor
    · rw [hcontains]
      simp only [Bool.true_eq_false, false_iff]
      omega
    · intro _
      refine ⟨?_, ?_⟩
      · simp [Wantlist.remove, he, hr, mapGet_mapSet_self]
      · simp only [WantListEntry.dec] at hpos ⊢
        omega
  · have hz : e.dec.refCounter = 0 := by
      simp only [WantListEntry.hasRefs, decide_eq_true_eq, not_lt] at hr
      simp only [WantListEntry.dec] at hr ⊢
      omega
    have hcontains : (w.remove c).contains c = false := by
      simp only [Wantlist.remove, he, hr, if_false, Bool.false_eq_true,
        Wantlist.contains]
      rw [mapGet_mapDelete_self _ _ hnd]
      rfl
    constructor
    · rw [hcontains, hz]
      simp
    · intro hpos
      omega

/-- Witness for C6 at concrete inputs: removing from a singleton wantlist
with refcount 1 deletes the entry. -/
theorem wantlist_remove_refcount_witness :
    ((Wantlist.empty.add cidV0sample 1).remove cidV0sample).contains cidV0sample = false := by
  have h := (wantlist_remove_refcount (Wantlist.empty.add cidV0sample 1) cidV0sample
    { cid := cidV0sample, priority := 1, wantType := none, refCounter := 1 }
    (by decide) (by decide)).1
  exact h.mpr (by decide)

theorem applyEntryOps_nonneg (ops : List EntryOp) (e : WantListEntry)
    (h : 0 ≤ e.refCounter) : 0 ≤ (applyEntryOps ops e).refCounter := by
  induction ops generalizing e with
  | nil => simpa [applyEntryOps] using h
  | cons op rest ih =>
    cases op with
    | inc =>
      have h2 : 0 ≤ e.inc.refCounter := by
        simp only [WantListEntry.inc]
        omega
      simpa [applyEntryOps] using ih e.inc h2
    | dec =>
      have h2 : 0 ≤ e.dec.refCounter := by
        simp only [WantListEntry.dec]
        omega
      simpa [applyEntryOps] using ih e.dec h2

/-- Claim C7: for every starting refcount ≥ 0 and every sequence of `inc`
and `dec` calls, the refcount stays ≥ 0; a `dec` on an entry whose
refcount is 0 leaves it at 0. -/
theorem entry_refcount_nonneg (ops : List EntryOp) (e : WantListEntry)
    (h : 0 ≤ e.refCounter) :
    0 ≤ (applyEntryOps ops e).refCounter ∧
    (e.refCounter = 0 → e.dec.refCounter = 0) := by
  refine ⟨applyEntryOps_nonneg ops e h, ?_⟩
  intro h0
  simp [WantListEntry.dec, h0]

/-- Witness for C7 at concrete inputs: a freshly constructed entry followed
by two decrements and an increment keeps a nonnegative refcount. -/
theorem entry_refcount_nonneg_witness :
    0 ≤ (applyEntryOps [EntryOp.dec, EntryOp.dec, EntryOp.inc]
      (WantListEntry.new cidV0sample 1 none)).refCounter ∧
    ((WantListEntry.new cidV0sample 1 none).refCounter = 0 →
      (WantListEntry.new cidV0sample 1 none).dec.refCounter = 0) := by
  exact entry_refcount_nonneg [EntryOp.dec, EntryOp.dec, EntryOp.inc]
    (WantListEntry.new cidV0sample 1 none) (by decide)

/-- Claim C9 (amended): `contains(cid)` returns a value that is truthy
exactly when the wantlist holds an entry stored under that CID's key: the
earlier staged revision returns the stored entry itself (undefined when
absent), and the later revision returns the boolean coercion of that same
lookup. -/
theorem wantlist_contains_spec (w : Wantlist) (c : CID) :
    ((w.containsOld c).isSome = true ↔ ∃ e, (cidStr c, e) ∈ w.set) ∧
    (∀ e, w.containsOld c = some e → (cidStr c, e) ∈ w.set) ∧
    w.contains c = (w.containsOld c).isSome := by
  refine ⟨mapGet_isSome_iff (cidStr c) w.set, ?_, rfl⟩
  intro e he
  exact mapGet_eq_some_mem (cidStr c) w.set e he

/-- Counterexample to C9 as stated: the earlier staged revision of
`contains` does not return a boolean value — on a wantlist holding the
sample CID it returns the stored entry object itself (priority, refcount
and all), not the value true; only the later revision, which coerces the
lookup, returns true. -/
theorem wantlist_contains_counterexample :
    (Wantlist.empty.add cidV0sample 1).containsOld cidV0sample =
      some { cid := cidV0sample, priority := 1, wantType := none, refCounter := 1 } ∧
    (Wantlist.empty.add cidV0sample 1).contains cidV0sample = true := by
  constructor
  · decide
  · decide

/-- Witness for C9 at concrete inputs: a wantlist holding the sample CID
yields a truthy lookup. -/
theorem wantlist_contains_spec_witness :
    ((Wantlist.empty.add cidV0sample 1).containsOld cidV0sample).isSome = true := by
  exact ((wantlist_contains_spec (Wantlist.empty.add cidV0sample 1) cidV0sample).1).mpr
    ⟨WantListEntry.new cidV0sample 1 none, by decide⟩

/-! ### Claim theorems: network adapter and message queue -/

/-- Claim C3: with `b100Only` false (or unset, which compares `!== true`
the same way) the advertised protocol list is exactly 1.2.0, 1.1.0, 1.0.0
in newest-first order; with `b100Only` true it is exactly 1.0.0. -/
theorem network_protocols_spec :
    networkProtocols false = ["/ipfs/bitswap/1.2.0", "/ipfs/bitswap/1.1.0", "/ipfs/bitswap/1.0.0"] ∧
    networkProtocols true = ["/ipfs/bitswap/1.0.0"] := by
  constructor <;> rfl

/-- Claim C2: `send` absorbs a `connectTo` failure (no error escapes and
`sendMessage` is never invoked for the message), and on a successful
connect, `sendMessage(peer, msg)` is issued. -/
theorem msgqueue_send_spec (net : NetworkState) (peer : PeerId) (msg : Message) :
    (∀ err, Network.connectTo net peer = Except.error err →
      MsgQueue.send net peer msg = Except.ok none) ∧
    (Network.connectTo net peer = Except.ok () →
      MsgQueue.send net peer msg = Except.ok (some msg)) ∧
    (∃ r, MsgQueue.send net peer msg = Except.ok r) := by
  refine ⟨?_, ?_, ?_⟩
  · intro err herr
    simp [MsgQueue.send, herr]
  · intro hok
    simp [MsgQueue.send, hok]
  · cases h : Network.connectTo net peer with
    | error e => exact ⟨none, by simp [MsgQueue.send, h]⟩
    | ok u => exact ⟨some msg, by cases u; simp [MsgQueue.send, h]⟩

/-- Witness for C2 at concrete inputs: a stopped network drops the message;
a running, reachable network passes it to `sendMessage`. -/
theorem msgqueue_send_spec_witness :
    MsgQueue.send ⟨false, fun _ => false⟩ 0 (Message.new false) = Except.ok none ∧
    MsgQueue.send ⟨true, fun _ => true⟩ 0 (Message.new false) =
      Except.ok (some (Message.new false)) := by
  constructor
  · exact (msgqueue_send_spec ⟨false, fun _ => false⟩ 0 (Message.new false)).1
      "network isnt running" rfl
  · exact (msgqueue_send_spec ⟨true, fun _ => true⟩ 0 (Message.new false)).2.1 rfl

/-- Claim C10: `addMessage` with an empty message (no wantlist entries, no
blocks) is a no-op, and any message the queue hands to `send` is the given
non-empty one. -/
theorem addMessage_empty_noop (m : Message) :
    (m.wantlist = [] ∧ m.blocks = [] → MsgQueue.addMessage m = none) ∧
    (∀ m2, MsgQueue.addMessage m = some m2 →
      m2 = m ∧ ¬(m2.wantlist = [] ∧ m2.blocks = [])) := by
  constructor
  · rintro ⟨h1, h2⟩
    simp [MsgQueue.addMessage, Message.empty, h1, h2]
  · intro m2 hm
    by_cases he : m.empty = true
    · simp [MsgQueue.addMessage, he] at hm
    · simp [MsgQueue.addMessage, he] at hm
      refine ⟨hm.symm, ?_⟩
      rintro ⟨h1, h2⟩
      apply he
      simp [Message.empty, hm.symm ▸ h1, hm.symm ▸ h2]

/-- Witness for C10 at concrete inputs: a fresh message is dropped, and a
message carrying one entry is handed on unchanged. -/
theorem addMessage_empty_noop_witness :
    MsgQueue.addMessage (Message.new false) = none ∧
    MsgQueue.addMessage ((Message.new false).addEntry cidV0sample 1) =
      some ((Message.new false).addEntry cidV0sample 1) := by
  constructor
  · exact (addMessage_empty_noop (Message.new false)).1 ⟨rfl, rfl⟩
  · rfl

theorem caught_ok (r : Except String Unit) : caught r = Except.ok () := by
  cases r with
  | error e => rfl
  | ok u => cases u; rfl

theorem findAndConnectLoop_fst (net : NetworkState) (ps : List PeerId) (found : Nat)
    (h : found < maxProvidersPerRequest) :
    (Network.findAndConnectLoop net ps found).map Prod.fst =
      ps.take (maxProvidersPerRequest - found) := by
  induction ps generalizing found with
  | nil => simp [Network.findAndConnectLoop]
  | cons p rest ih =>
    by_cases hf : found + 1 = maxProvidersPerRequest
    · have h1 : maxProvidersPerRequest - found = 1 := by omega
      simp [Network.findAndConnectLoop, hf, h1]
    · have hlt : found + 1 < maxProvidersPerRequest := by
        omega
      have h1 : maxProvidersPerRequest - found =
          (maxProvidersPerRequest - (found + 1)) + 1 := by omega
      rw [h1]
      simp [Network.findAndConnectLoop, hf, ih (found + 1) hlt, List.take_succ_cons]

theorem findAndConnectLoop_caught (net : NetworkState) (ps : List PeerId) (found : Nat) :
    ∀ a ∈ Network.findAndConnectLoop net ps found, a.2 = Except.ok () := by
  induction ps generalizing found with
  | nil => simp [Network.findAndConnectLoop]
  | cons p rest ih =>
    intro a ha
    by_cases hf : found + 1 = maxProvidersPerRequest
    · simp [Network.findAndConnectLoop, hf] at ha
      rw [ha]
      exact caught_ok _
    · simp [Network.findAndConnectLoop, hf] at ha
      cases ha with
      | inl h1 =>
        rw [h1]
        exact caught_ok _
      | inr h2 => exact ih (found + 1) a h2

/-- Claim C4: `findAndConnect` issues a connect for exactly the first
`maxProvidersPerRequest` providers of the stream (so at most 10), and every
per-provider dial failure is caught, so awaiting the attempts never
fails. -/
theorem findAndConnect_spec (net : NetworkState) (providers : List PeerId) :
    (Network.findAndConnect net providers).1 = providers.take maxProvidersPerRequest ∧
    (Network.findAndConnect net providers).1.length ≤ maxProvidersPerRequest ∧
    (Network.findAndConnect net providers).2 = Except.ok () := by
  have h1 := findAndConnectLoop_fst net providers 0 (by decide)
  have hfst : (Network.findAndConnect net providers).1 =
      providers.take maxProvidersPerRequest := by
    simpa [Network.findAndConnect] using h1
  refine ⟨hfst, ?_, ?_⟩
  · rw [hfst]
    simp [List.length_take]
  · have h2 := findAndConnectLoop_caught net providers 0
    have hall : ((Network.findAndConnectLoop net providers 0).map Prod.snd).all
        (fun r => r.isOk) = true := by
      rw [List.all_eq_true]
      intro r hr
      obtain ⟨a, ha, rfl⟩ := List.mem_map.mp hr
      rw [h2 a ha]
      rfl
    simp [Network.findAndConnect, promiseAll, hall]

/-! ### Claim theorems: sendEntries (C1) -/

theorem mapGet_mapSet_ne (k k2 : String) (v : α) (l : List (String × α)) (h : k2 ≠ k) :
    mapGet k (mapSet k2 v l) = mapGet k l := by
  induction l with
  | nil => simp [mapGet, mapSet, h]
  | cons hd t ih =>
    obtain ⟨k1, v1⟩ := hd
    by_cases hk : k1 = k2
    · subst hk
      simp [mapGet, mapSet, h]
    · by_cases hk1 : k1 = k
      · subst hk1
        simp [mapGet, mapSet, hk]
      · simp [mapGet, mapSet, hk, hk1, ih]

theorem mapSet_ne_nil (k : String) (v : α) (l : List (String × α)) :
    mapSet k v l ≠ [] := by
  cases l with
  | nil => simp [mapSet]
  | cons hd t =>
    obtain ⟨k1, v1⟩ := hd
    by_cases hk : k1 = k <;> simp [mapSet, hk]

theorem buildMessage_append_one (l : List QueueEntry) (q : QueueEntry) :
    MsgQueue.buildMessage (l ++ [q]) =
      (if q.cancel = true then (MsgQueue.buildMessage l).cancel q.cid
       else (MsgQueue.buildMessage l).addEntry q.cid q.priority) := by
  simp [MsgQueue.buildMessage, List.foldl_append]

theorem buildMessage_full (l : List QueueEntry) :
    (MsgQueue.buildMessage l).full = false := by
  induction l using List.reverseRecOn with
  | nil => rfl
  | append_singleton l q ih =>
    rw [buildMessage_append_one]
    by_cases hc : q.cancel = true <;>
      simp [hc, Message.cancel, Message.addEntry, ih]

theorem buildMessage_wantlist_ne_nil (l : List QueueEntry) (h : l ≠ []) :
    (MsgQueue.buildMessage l).wantlist ≠ [] := by
  induction l using List.reverseRecOn with
  | nil => exact absurd rfl h
  | append_singleton l q ih =>
    rw [buildMessage_append_one]
    by_cases hc : q.cancel = true <;>
      simp [hc, Message.cancel, Message.addEntry, mapSet_ne_nil]

theorem buildMessage_wantlist_get (l : List QueueEntry) (k : String) :
    mapGet k (MsgQueue.buildMessage l).wantlist =
      (lastEntryFor k l).map toMessageEntry := by
  induction l using List.reverseRecOn with
  | nil => simp [MsgQueue.buildMessage, lastEntryFor, mapGet, Message.new]
  | append_singleton l q ih =>
    rw [buildMessage_append_one]
    by_cases hq : cidStr q.cid = k
    · by_cases hc : q.cancel = true
      · simp only [hc, if_true, Message.cancel]
        rw [hq, mapGet_mapSet_self]
        rw [lastEntryFor, List.filter_append]
        simp [hq, hc, toMessageEntry, List.getLast?_concat]
      · simp only [hc, if_false, Bool.false_eq_true, Message.addEntry]
        rw [hq, mapGet_mapSet_self]
        rw [lastEntryFor, List.filter_append]
        simp [hq, hc, toMessageEntry, List.getLast?_concat]
    · have hstep : mapGet k (MsgQueue.buildMessage l).wantlist =
          (lastEntryFor k l).map toMessageEntry := ih
      by_cases hc : q.cancel = true
      · simp only [hc, if_true, Message.cancel]
        rw [mapGet_mapSet_ne _ _ _ _ hq, hstep]
        rw [lastEntryFor, lastEntryFor, List.filter_append]
        simp [hq]
      · simp only [hc, if_false, Bool.false_eq_true, Message.addEntry]
        rw [mapGet_mapSet_ne _ _ _ _ hq, hstep]
        rw [lastEntryFor, lastEntryFor, List.filter_append]
        simp [hq]

/-- Claim C1 (amended): `sendEntries` on an empty pending list is a no-op.
On a non-empty pending list it clears the pending list and hands exactly
one message to `send`: a non-full message whose wantlist holds, for every
CID key among the accumulated entries, the entry derived from the last
accumulated entry with that key (cancel entries become cancel entries, the
others want entries with their priority); when no two accumulated entries
share a CID this is every accumulated entry. -/
theorem sendEntries_spec (pending : List QueueEntry) :
    (pending = [] → MsgQueue.sendEntries pending = (pending, none)) ∧
    (pending ≠ [] →
      (MsgQueue.sendEntries pending).1 = [] ∧
      (MsgQueue.sendEntries pending).2 = some (MsgQueue.buildMessage pending) ∧
      (MsgQueue.buildMessage pending).full = false ∧
      (∀ k, mapGet k (MsgQueue.buildMessage pending).wantlist =
        (lastEntryFor k pending).map toMessageEntry)) := by
  constructor
  · intro h
    subst h
    rfl
  · intro h
    have hlen : ¬ pending.length = 0 := by
      simpa [List.length_eq_zero] using h
    have hwl : (MsgQueue.buildMessage pending).wantlist ≠ [] :=
      buildMessage_wantlist_ne_nil pending h
    have hempty : (MsgQueue.buildMessage pending).empty = false := by
      simp [Message.empty, List.isEmpty_iff, hwl]
    refine ⟨?_, ?_, buildMessage_full pending, buildMessage_wantlist_get pending⟩
    · simp [MsgQueue.sendEntries, hlen]
    · simp [MsgQueue.sendEntries, hlen, MsgQueue.addMessage, hempty]

/-- Witness for C1 at a concrete input: a single pending want entry is
flushed as one non-full message. -/
theorem sendEntries_spec_witness :
    (MsgQueue.sendEntries
        [{ cid := cidV0sample, priority := 1, cancel := false }]).2 =
      some (MsgQueue.buildMessage
        [{ cid := cidV0sample, priority := 1, cancel := false }]) := by
  exact ((sendEntries_spec
    [{ cid := cidV0sample, priority := 1, cancel := false }]).2 (by decide)).2.1

/-- Counterexample to C1 as stated: with a want entry and a later cancel
entry accumulated for the same CID, the built message does not contain the
want entry at all — its wantlist is exactly one cancel entry, because the
message wantlist is keyed by CID and the later entry overwrites the
earlier one. -/
theorem sendEntries_counterexample :
    dupPending.head? = some { cid := cidV0sample, priority := 1, cancel := false } ∧
    (MsgQueue.sendEntries dupPending).2 =
      some { full := false,
             wantlist := [(cidStr cidV0sample,
               { cid := cidV0sample, priority := 0, cancel := true })],
             blocks := [] } := by
  constructor
  · rfl
  · rfl

/-! ### Claim theorems: sortedEntries (C8) -/

theorem char_toNat_injective : Function.Injective Char.toNat :=
  StrictMono.injective fun _ _ h => h

theorem strLeList_total (as bs : List Char) :
    strLeList as bs = true ∨ strLeList bs as = true := by
  induction as generalizing bs with
  | nil => left; rfl
  | cons a as ih =>
    cases bs with
    | nil => right; rfl
    | cons b bs =>
      by_cases h1 : a.toNat < b.toNat
      · left
        simp [strLeList, h1]
      · by_cases h2 : b.toNat < a.toNat
        · right
          simp [strLeList, h1, h2]
        · have hres := ih bs
          rcases hres with hl | hr
          · left
            simp [strLeList, h1, h2, hl]
          · right
            simp [strLeList, h1, h2, hr]

theorem strLeList_trans (as bs cs : List Char) (h1 : strLeList as bs = true)
    (h2 : strLeList bs cs = true) : strLeList as cs = true := by
  induction as generalizing bs cs with
  | nil => rfl
  | cons a as ih =>
    cases bs with
    | nil => simp [strLeList] at h1
    | cons b bs =>
      cases cs with
      | nil => simp [strLeList] at h2
      | cons c cs =>
        have hba : ¬ b.toNat < a.toNat := by
          intro hba
          have hab : ¬ a.toNat < b.toNat := by omega
          simp [strLeList, hab, hba] at h1
        have hcb : ¬ c.toNat < b.toNat := by
          intro hcb
          have hbc : ¬ b.toNat < c.toNat := by omega
          simp [strLeList, hbc, hcb] at h2
        by_cases hac : a.toNat < c.toNat
        · simp [strLeList, hac]
        · have hab : ¬ a.toNat < b.toNat := by omega
          have hbc : ¬ b.toNat < c.toNat := by omega
          have hca : ¬ c.toNat < a.toNat := by omega
          simp only [strLeList, if_neg hab, if_neg hba] at h1
          simp only [strLeList, if_neg hbc, if_neg hcb] at h2
          simp only [strLeList, if_neg hac, if_neg hca]
          exact ih bs cs h1 h2

theorem strLeList_antisymm (as bs : List Char) (h1 : strLeList as bs = true)
    (h2 : strLeList bs as = true) : as = bs := by
  induction as generalizing bs with
  | nil =>
    cases bs with
    | nil => rfl
    | cons b bs => simp [strLeList] at h2
  | cons a as ih =>
    cases bs with
    | nil => simp [strLeList] at h1
    | cons b bs =>
      have hba : ¬ b.toNat < a.toNat := by
        intro hba
        have hab : ¬ a.toNat < b.toNat := by omega
        simp [strLeList, hab, hba] at h1
      have hab : ¬ a.toNat < b.toNat := by
        intro hab
        have hba2 : ¬ b.toNat < a.toNat := by omega
        simp [strLeList, hab, hba2] at h2
      have heq : a = b := char_toNat_injective (by omega)
      subst heq
      simp only [strLeList, if_neg hab, if_neg hba] at h1 h2
      rw [ih bs h1 h2]

theorem strLe_antisymm (a b : String) (h1 : strLe a b = true)
    (h2 : strLe b a = true) : a = b := by
  have h := strLeList_antisymm a.toList b.toList h1 h2
  cases a with
  | mk da =>
    cases b with
    | mk db =>
      simp only [String.toList] at h
      rw [h]

instance : IsTotal (String × WantListEntry) Wantlist.keyLE :=
  ⟨fun a b => strLeList_total a.1.toList b.1.toList⟩

instance : IsTrans (String × WantListEntry) Wantlist.keyLE :=
  ⟨fun a b c h1 h2 => strLeList_trans a.1.toList b.1.toList c.1.toList h1 h2⟩

instance : IsAntisymm (String × WantListEntry) keyLTstrict :=
  ⟨fun a b h1 h2 => absurd (strLe_antisymm a.1 b.1 h1.1 h2.1) h1.2⟩

/-- Claim C8 (amended): `sortedEntries()` is a deterministic function of
the wantlist contents — two wantlists holding the same key/entry pairs (in
any insertion order, keys unique) yield identical sorted sequences — and
the sequence is ordered lexicographically by the CID base-encoded string
key (not by the CID canonical bytes). -/
theorem sortedEntries_deterministic (w1 w2 : Wantlist)
    (hperm : w1.set.Perm w2.set) (hnd : (w1.set.map Prod.fst).Nodup) :
    w1.sortedEntries = w2.sortedEntries ∧
    List.Sorted Wantlist.keyLE w1.sortedEntries := by
  have hs1 : List.Sorted Wantlist.keyLE w1.sortedEntries :=
    List.sorted_insertionSort _ _
  have hs2 : List.Sorted Wantlist.keyLE w2.sortedEntries :=
    List.sorted_insertionSort _ _
  have hp1 : w1.sortedEntries.Perm w1.set := List.perm_insertionSort _ _
  have hp2 : w2.sortedEntries.Perm w2.set := List.perm_insertionSort _ _
  have hp : w1.sortedEntries.Perm w2.sortedEntries :=
    hp1.trans (hperm.trans hp2.symm)
  have hnd2 : (w2.set.map Prod.fst).Nodup :=
    ((hperm.map Prod.fst).nodup_iff).mp hnd
  have hne1 : List.Pairwise (fun a b : String × WantListEntry => a.1 ≠ b.1) w1.set := by
    have hnd1 : List.Pairwise (fun a b : String => a ≠ b) (w1.set.map Prod.fst) := hnd
    exact List.pairwise_map.mp hnd1
  have hne2 : List.Pairwise (fun a b : String × WantListEntry => a.1 ≠ b.1) w2.set := by
    have hnd2b : List.Pairwise (fun a b : String => a ≠ b) (w2.set.map Prod.fst) := hnd2
    exact List.pairwise_map.mp hnd2b
  have hsymm : ∀ {x y : String × WantListEntry}, x.1 ≠ y.1 → y.1 ≠ x.1 :=
    fun h => Ne.symm h
  have hneS1 : List.Pairwise (fun a b : String × WantListEntry => a.1 ≠ b.1)
      w1.sortedEntries := (List.Perm.pairwise_iff hsymm hp1).mpr hne1
  have hneS2 : List.Pairwise (fun a b : String × WantListEntry => a.1 ≠ b.1)
      w2.sortedEntries := (List.Perm.pairwise_iff hsymm hp2).mpr hne2
  have hlt1 : List.Sorted keyLTstrict w1.sortedEntries := List.Pairwise.and hs1 hneS1
  have hlt2 : List.Sorted keyLTstrict w2.sortedEntries := List.Pairwise.and hs2 hneS2
  exact ⟨List.eq_of_perm_of_sorted hp hlt1 hlt2, hs1⟩

/-- Witness for C8 at concrete inputs: the two sample CIDs added in either
order give the same sorted sequence. -/
theorem sortedEntries_deterministic_witness :
    ((Wantlist.empty.add cidV1sample 1).add cidV0sample 1).sortedEntries =
      ((Wantlist.empty.add cidV0sample 1).add cidV1sample 1).sortedEntries := by
  exact (sortedEntries_deterministic
    ((Wantlist.empty.add cidV1sample 1).add cidV0sample 1)
    ((Wantlist.empty.add cidV0sample 1).add cidV1sample 1)
    (by decide) (by decide)).1

/-- Counterexample to C8 as stated: in a wantlist holding one version-0
and one version-1 CID, `sortedEntries()` puts the version-0 CID first
(its base58 string key starts with Q, below b), although the version-1
CID's canonical bytes are byte-lexicographically smaller — so the output
is not ordered by CID canonical bytes. -/
theorem sortedEntries_not_bytelex :
    (sampleWantlist.sortedEntries.map fun p => p.2.cid) = [cidV0sample, cidV1sample] ∧
    byteLexLt cidV1sample.bytes cidV0sample.bytes = true := by
  constructor
  · decide
  · decide

end Bitswap
